import Mathlib

/-!
Verification of the phenix app lifecycle orchestrator (src/src/go/app/app.go).

The Go file dispatches pluggable apps over an experiment for a requested
lifecycle stage: a first pass over the four default apps, a second pass over
the scenario-declared apps, and a final SetDefaults normalization for the
configure and pre-start stages.  App implementations (NTP, Serial, Startup,
UserApp, Vrouter) are external collaborators, so here an app is an abstract
behavior: a current name, a stage-hook function, and an Init function.  The
orchestrator itself is translated line by line; its observable behavior is a
trace of events (hook invocations, Init calls, status reports, SetDefaults)
plus the returned error.
-/

namespace Phenix

/-- Go error values as seen by this package: the distinguished sentinel
ErrUserAppNotFound, wrapping via fmt.Errorf with the w verb, and opaque
errors carrying only a message. -/
inductive Err : Type where
  | userAppNotFound : Err
  | wrapped : String → Err → Err
  | msg : String → Err
deriving DecidableEq, Repr

/-- Semantics of errors.Is(err, ErrUserAppNotFound): identity or any link of
the unwrap chain is the sentinel. -/
def Err.isUserAppNotFound : Err → Bool
  | .userAppNotFound => true
  | .wrapped _ cause => cause.isUserAppNotFound
  | .msg _ => false

/-- Action constant ACTIONCONFIG from app.go (Action is a string type in Go). -/
def ACTIONCONFIG : String := "configure"

/-- Action constant ACTIONPRESTART from app.go. -/
def ACTIONPRESTART : String := "pre-start"

/-- Action constant ACTIONPOSTSTART from app.go. -/
def ACTIONPOSTSTART : String := "post-start"

/-- Action constant ACTIONCLEANUP from app.go. -/
def ACTIONCLEANUP : String := "cleanup"

/-- Observable state of one app instance: what Name() returns and what each
stage hook (Configure, PreStart, PostStart, Cleanup, keyed by the stage
string) returns when invoked.  App implementations live outside this
package, so the behavior is a parameter of the development. -/
structure AppCore where
  nameF : String
  hookF : String → Option Err

/-- An app instance as the orchestrator uses it: its current core, plus the
Init method.  Modelled from the spec: Init binds per-invocation identity and
dry-run mode, returning the updated instance view and an error (the concrete
Init bodies are in the external app implementations). -/
structure App where
  core : AppCore
  initF : String → Bool → AppCore × Option Err

/-- The five instances registered by init() in app.go. -/
structure RegistryApps where
  ntp : App
  serial : App
  startup : App
  userShell : App
  vrouter : App

/-- The package-level apps map after init(): exactly the five registered
names resolve. -/
def apps (r : RegistryApps) (name : String) : Option App :=
  if name = "ntp" then some r.ntp
  else if name = "serial" then some r.serial
  else if name = "startup" then some r.startup
  else if name = "user-shell" then some r.userShell
  else if name = "vrouter" then some r.vrouter
  else none

/-- The keys of the defaultApps marker set in app.go. -/
def defaultNames : List String := ["ntp", "serial", "startup", "vrouter"]

/-- Membership test against the defaultApps set. -/
def isDefaultName (n : String) : Bool := defaultNames.contains n

/-- GetApp from app.go: direct lookup, falling back to the user-shell
instance when the name is not registered. -/
def GetApp (r : RegistryApps) (name : String) : App :=
  match apps r name with
  | some a => a
  | none => r.userShell

/-- DefaultApps from app.go: the instances for the default keys.  Go map
iteration order is unspecified, so the order the range produces is a
parameter; legitimate orders are permutations of defaultNames. -/
def DefaultApps (r : RegistryApps) (order : List String) : List App :=
  order.filterMap (apps r)

/-- InvocationOptions.  Modelled from the spec: Stage, DryRun and Name
accumulate onto a zero-valued struct (the options type lives outside this
source slice). -/
structure Options where
  stage : String
  dryRun : Bool
  name : String

/-- Modelled from the spec: the zero-valued options struct. -/
def zeroOptions : Options := { stage := "", dryRun := false, name := "" }

/-- Modelled from the spec: an Option is a mutation of the options struct. -/
def AppOption : Type := Options → Options

/-- Modelled from the spec: the Stage option constructor. -/
def Stage (s : String) : AppOption := fun o => { o with stage := s }

/-- Modelled from the spec: the DryRun option constructor. -/
def DryRun (d : Bool) : AppOption := fun o => { o with dryRun := d }

/-- Modelled from the spec: the Name option constructor. -/
def Name (n : String) : AppOption := fun o => { o with name := n }

/-- Modelled from the spec: NewOptions applies the given option values onto
the zero-valued struct in order. -/
def NewOptions (opts : List AppOption) : Options :=
  opts.foldl (fun o f => f o) zeroOptions

/-- Status of one reported app invocation (the check, cross and question-mark
symbols sent to the reporting sink). -/
inductive Status where
  | ok | failed | unresolved
deriving DecidableEq, Repr

/-- One observable step of ApplyApps: a default-pass hook call (keyed by
registry key), a scenario-pass hook call (keyed by declared name), an Init
call with its discarded result, a status report (isDefault distinguishes the
default-app line from the experiment-app line), or SetDefaults on the
specification. -/
inductive Event where
  | defHook (key : String) (stage : String)
  | scenHook (name : String) (stage : String)
  | initCall (name : String) (dryRun : Bool) (res : Option Err)
  | report (st : Status) (name : String) (stage : String) (isDefault : Bool)
  | setDefaults
deriving DecidableEq, Repr

/-- The requested stage is one of the four lifecycle actions, i.e. the switch
statement in ApplyApps matches a case. -/
def stageValid (s : String) : Prop :=
  s = ACTIONCONFIG ∨ s = ACTIONPRESTART ∨ s = ACTIONPOSTSTART ∨ s = ACTIONCLEANUP

instance (s : String) : Decidable (stageValid s) := by
  unfold stageValid; infer_instance

/-- The switch over options.Stage: invoke the matching hook, or leave err
unchanged when no case matches.  The boolean records whether a hook ran. -/
def runStage (c : AppCore) (stage : String) (prevErr : Option Err) :
    Option Err × Bool :=
  if stage = ACTIONCONFIG then (c.hookF ACTIONCONFIG, true)
  else if stage = ACTIONPRESTART then (c.hookF ACTIONPRESTART, true)
  else if stage = ACTIONPOSTSTART then (c.hookF ACTIONPOSTSTART, true)
  else if stage = ACTIONCLEANUP then (c.hookF ACTIONCLEANUP, true)
  else (prevErr, false)

/-- Outcome of one pass: the loop completed (carrying the final value of the
err variable) or returned early with an error. -/
inductive PassOut where
  | done (events : List Event) (errState : Option Err)
  | ret (events : List Event) (e : Err)
deriving Repr

/-- The wrapped error returned when a default app fails. -/
def defaultWrap (name stage : String) (e : Err) : Err :=
  .wrapped ("applying default app " ++ name ++ " for action " ++ stage) e

/-- The wrapped error returned when an experiment (scenario) app fails. -/
def expWrap (name stage : String) (e : Err) : Err :=
  .wrapped ("applying experiment app " ++ name ++ " for action " ++ stage) e

/-- Pass 1 of ApplyApps: the loop over DefaultApps().  Iterates the default
keys in the given map order, invokes the stage hook, reports status, and
returns the wrapped error on the first failure. -/
def pass1 (r : RegistryApps) (stage : String) :
    List String → Option Err → PassOut
  | [], errSt => .done [] errSt
  | k :: rest, errSt =>
    match apps r k with
    | none => pass1 r stage rest errSt
    | some a =>
      let p := runStage a.core stage errSt
      let hookEvs := if p.2 then [Event.defHook k stage] else []
      let st := if p.1.isSome then Status.failed else Status.ok
      let repEv := Event.report st a.core.nameF stage true
      match p.1 with
      | some e => .ret (hookEvs ++ [repEv]) (defaultWrap a.core.nameF stage e)
      | none =>
        match pass1 r stage rest none with
        | .done evs errSt' => .done (hookEvs ++ [repEv] ++ evs) errSt'
        | .ret evs e => .ret (hookEvs ++ [repEv] ++ evs) e

/-- Pass 2 of ApplyApps: the loop over the scenario app declarations.
Default-named apps are skipped; otherwise the app is resolved via GetApp,
Init is called with the declared name and the dry-run flag (its error
discarded), the stage hook runs, the status is classified (ok, unresolved
via errors.Is against the sentinel, or failed), and a non-unresolved error
returns the wrapped error while an unresolved one continues. -/
def pass2 (r : RegistryApps) (stage : String) (dryRun : Bool) :
    List String → Option Err → PassOut
  | [], errSt => .done [] errSt
  | n :: rest, errSt =>
    if isDefaultName n then pass2 r stage dryRun rest errSt
    else
      let a := GetApp r n
      let ini := a.initF n dryRun
      let initEv := Event.initCall n dryRun ini.2
      let p := runStage ini.1 stage errSt
      let hookEvs := if p.2 then [Event.scenHook n stage] else []
      let st :=
        match p.1 with
        | none => Status.ok
        | some e => if e.isUserAppNotFound then Status.unresolved else Status.failed
      let repEv := Event.report st ini.1.nameF stage false
      match p.1 with
      | none =>
        match pass2 r stage dryRun rest none with
        | .done evs errSt' => .done (initEv :: (hookEvs ++ [repEv] ++ evs)) errSt'
        | .ret evs e => .ret (initEv :: (hookEvs ++ [repEv] ++ evs)) e
      | some e =>
        if e.isUserAppNotFound then
          match pass2 r stage dryRun rest (some e) with
          | .done evs errSt' => .done (initEv :: (hookEvs ++ [repEv] ++ evs)) errSt'
          | .ret evs e' => .ret (initEv :: (hookEvs ++ [repEv] ++ evs)) e'
        else
          .ret (initEv :: (hookEvs ++ [repEv])) (expWrap ini.1.nameF stage e)

/-- The experiment as the orchestrator observes it: the specification
optionally carries a scenario, an ordered list of app declarations, of which
only the Name field is consulted here. -/
structure Experiment where
  scenario : Option (List String)

/-- ApplyApps from app.go: accumulate options, run pass 1 over the default
apps, run pass 2 over the scenario apps when a scenario is present, and call
SetDefaults for the configure and pre-start stages.  Returns the event trace
and the error value ApplyApps returns (none for the final return nil). -/
def ApplyApps (r : RegistryApps) (defOrder : List String) (exp : Experiment)
    (opts : List AppOption) : List Event × Option Err :=
  let options := NewOptions opts
  match pass1 r options.stage defOrder none with
  | .ret evs e => (evs, some e)
  | .done evs1 errSt =>
    let p2 :=
      match exp.scenario with
      | none => PassOut.done [] errSt
      | some sapps => pass2 r options.stage options.dryRun sapps errSt
    match p2 with
    | .ret evs2 e => (evs1 ++ evs2, some e)
    | .done evs2 _ =>
      let sd :=
        if options.stage = ACTIONCONFIG ∨ options.stage = ACTIONPRESTART
        then [Event.setDefaults] else []
      (evs1 ++ evs2 ++ sd, none)

/-- List from app.go (named ListApps here because List is taken in Lean):
walk the registry keys in the given map order, skip the user-shell adapter
and the default names, then append the names the shell collaborator
discovered under the phenix-app naming convention. -/
def ListApps (regOrder : List String) (discovered : List String) : List String :=
  (regOrder.foldl
    (fun acc name =>
      if name = "user-shell" then acc
      else if isDefaultName name then acc
      else acc ++ [name]) []) ++ discovered

/-- The registry keys registered by init(), for instantiating the map
iteration order of ListApps. -/
def registryKeys : List String := ["ntp", "serial", "startup", "user-shell", "vrouter"]

/-- The core a scenario app with declared name n runs with: resolve via
GetApp, then Init with the name and dry-run flag. -/
def scenCore (r : RegistryApps) (n : String) (d : Bool) : AppCore :=
  ((GetApp r n).initF n d).1

/-- The declared names of the scenario-pass hook invocations, in trace
order. -/
def scenHookNames (tr : List Event) : List String :=
  tr.filterMap fun ev =>
    match ev with
    | .scenHook n _ => some n
    | _ => none

/-- The status reports in the trace, in order. -/
def reportsOf (tr : List Event) : List (Status × String × String × Bool) :=
  tr.filterMap fun ev =>
    match ev with
    | .report st n s b => some (st, n, s, b)
    | _ => none

/-- Erase the recorded Init result from an event; used to state that the
orchestrator ignores Init errors. -/
def scrubInitRes : Event → Event
  | .initCall n d _ => .initCall n d none
  | ev => ev

/-- Replace the error component of every Init result of an instance. -/
def App.withInitErr (a : App) (g : String → Bool → Option Err) : App :=
  { a with initF := fun n d => ((a.initF n d).1, g n d) }

/-- Replace the error component of every Init result across the registry. -/
def RegistryApps.withInitErr (r : RegistryApps) (g : String → Bool → Option Err) :
    RegistryApps :=
  { ntp := r.ntp.withInitErr g
    serial := r.serial.withInitErr g
    startup := r.startup.withInitErr g
    userShell := r.userShell.withInitErr g
    vrouter := r.vrouter.withInitErr g }

/-- A core that succeeds at every hook, for concrete witnesses. -/
def okCore (name : String) : AppCore := { nameF := name, hookF := fun _ => none }

/-- An app that succeeds at every hook and whose Init binds the requested
name, for concrete witnesses. -/
def okApp (name : String) : App :=
  { core := okCore name, initF := fun n _ => (okCore n, none) }

/-- A registry of all-succeeding apps, for concrete witnesses. -/
def okRegistry : RegistryApps :=
  { ntp := okApp "ntp", serial := okApp "serial", startup := okApp "startup",
    userShell := okApp "user-shell", vrouter := okApp "vrouter" }

/-- The trace pass 1 produces when every invoked default hook succeeds. -/
def p1trace (r : RegistryApps) (stage : String) : List String → List Event
  | [] => []
  | k :: rest =>
    (match apps r k with
     | none => []
     | some a =>
       (if stageValid stage then [Event.defHook k stage] else []) ++
         [Event.report .ok a.core.nameF stage true]) ++ p1trace r stage rest

/-- Status the orchestrator reports for a given hook result. -/
def statusOfErr : Option Err → Status
  | none => .ok
  | some e => if e.isUserAppNotFound then .unresolved else .failed

/-- The hook result of the scenario app declared as n: the resolved,
Init-bound core invoked at the stage (none when the stage matches no case,
since then no hook runs). -/
def scenHookRes (r : RegistryApps) (stage : String) (d : Bool) (n : String) :
    Option Err :=
  if stageValid stage then (scenCore r n d).hookF stage else none

/-- The trace pass 2 produces while no fatal (non-unresolved) error occurs. -/
def p2trace (r : RegistryApps) (stage : String) (d : Bool) :
    List String → List Event
  | [] => []
  | n :: rest =>
    (if isDefaultName n then []
     else
       Event.initCall n d ((GetApp r n).initF n d).2 ::
         ((if stageValid stage then [Event.scenHook n stage] else []) ++
           [Event.report (statusOfErr (scenHookRes r stage d n))
             (scenCore r n d).nameF stage false])) ++ p2trace r stage d rest

/-- The scenario-pass contribution to the trace of a fatal-error-free run. -/
def scenTrace (r : RegistryApps) (stage : String) (d : Bool) (exp : Experiment) :
    List Event :=
  match exp.scenario with
  | none => []
  | some l => p2trace r stage d l

/-- The post-pass normalization contribution to the trace. -/
def sdTrace (stage : String) : List Event :=
  if stage = ACTIONCONFIG ∨ stage = ACTIONPRESTART then [Event.setDefaults] else []

/-- The pass-2 (experiment app) status reports of a trace: status and
reported name of the lines flagged as experiment apps. -/
def scenReports (tr : List Event) : List (Status × String) :=
  tr.filterMap fun ev =>
    match ev with
    | .report st n _ false => some (st, n)
    | _ => none

/-- Erase Init results from the events of a pass outcome. -/
def PassOut.scrub : PassOut → PassOut
  | .done evs es => .done (evs.map scrubInitRes) es
  | .ret evs e => .ret (evs.map scrubInitRes) e

/-- A core whose every hook fails with an opaque error, for concrete
witnesses. -/
def failCore (name : String) : AppCore :=
  { nameF := name, hookF := fun _ => some (.msg "boom") }

/-- A registry whose ntp app fails every hook, for concrete witnesses. -/
def failRegistry : RegistryApps :=
  { okRegistry with
    ntp := { core := failCore "ntp", initF := fun n _ => (failCore n, none) } }

/-- A user-shell adapter whose Init binds the requested name and whose hooks
then fail with the unresolved sentinel, modelling a scenario name with no
matching external command; for concrete witnesses. -/
def unresolvedUserApp : App :=
  { core := okCore "user-shell",
    initF := fun n _ =>
      ({ nameF := n, hookF := fun _ => some .userAppNotFound }, none) }

/-- A registry whose fallback adapter reports every external app as
unresolved, for concrete witnesses. -/
def unresolvedRegistry : RegistryApps :=
  { okRegistry with userShell := unresolvedUserApp }

/-- A user-shell adapter whose Init binds the requested name and whose hooks
then fail with an opaque (non-unresolved) error, for concrete witnesses. -/
def failingUserApp : App :=
  { core := okCore "user-shell",
    initF := fun n _ =>
      ({ nameF := n, hookF := fun _ => some (.msg "exec failed") }, none) }

/-- A registry whose fallback adapter fails fatally, for concrete
witnesses. -/
def failingShellRegistry : RegistryApps :=
  { okRegistry with userShell := failingUserApp }

theorem runStage_valid (c : AppCore) {s : String} (h : stageValid s)
    (prev : Option Err) : runStage c s prev = (c.hookF s, true) := by
  rcases h with h | h | h | h <;> subst h <;>
    simp +decide [runStage, ACTIONCONFIG, ACTIONPRESTART, ACTIONPOSTSTART,
      ACTIONCLEANUP]

theorem runStage_invalid (c : AppCore) {s : String} (h : ¬ stageValid s)
    (prev : Option Err) : runStage c s prev = (prev, false) := by
  simp only [stageValid, not_or] at h
  obtain ⟨h1, h2, h3, h4⟩ := h
  simp [runStage, h1, h2, h3, h4]

theorem pass1_succ (r : RegistryApps) {stage : String} (hv : stageValid stage)
    (order : List String)
    (hsucc : ∀ k ∈ order, ∀ a, apps r k = some a → a.core.hookF stage = none) :
    pass1 r stage order none = .done (p1trace r stage order) none := by
  induction order with
  | nil => simp [pass1, p1trace]
  | cons k rest ih =>
    have hrest : ∀ j ∈ rest, ∀ a, apps r j = some a → a.core.hookF stage = none :=
      fun j hj => hsucc j (List.mem_cons_of_mem _ hj)
    cases happs : apps r k with
    | none => simp [pass1, happs, p1trace, ih hrest]
    | some a =>
      have hk : a.core.hookF stage = none := hsucc k (List.mem_cons_self k rest) a happs
      simp [pass1, happs, runStage_valid _ hv, hk, p1trace, ih hrest, hv]

theorem pass1_invalid (r : RegistryApps) {stage : String} (hv : ¬ stageValid stage)
    (order : List String) :
    pass1 r stage order none = .done (p1trace r stage order) none := by
  induction order with
  | nil => simp [pass1, p1trace]
  | cons k rest ih =>
    cases happs : apps r k with
    | none => simp [pass1, happs, p1trace, ih]
    | some a =>
      simp [pass1, happs, runStage_invalid _ hv, p1trace, ih, hv]

theorem pass1_fatal (r : RegistryApps) {stage : String} (hv : stageValid stage)
    (l1 : List String) (k : String) (l2 : List String)
    (h1 : ∀ j ∈ l1, ∀ a, apps r j = some a → a.core.hookF stage = none)
    (ak : App) (hk : apps r k = some ak) (e : Err)
    (he : ak.core.hookF stage = some e) :
    pass1 r stage (l1 ++ k :: l2) none =
      .ret (p1trace r stage l1 ++
        [Event.defHook k stage, Event.report .failed ak.core.nameF stage true])
        (defaultWrap ak.core.nameF stage e) := by
  induction l1 with
  | nil =>
    simp [pass1, hk, runStage_valid _ hv, he, p1trace, hv]
  | cons j rest ih =>
    have hrest : ∀ i ∈ rest, ∀ a, apps r i = some a → a.core.hookF stage = none :=
      fun i hi => h1 i (List.mem_cons_of_mem _ hi)
    cases happs : apps r j with
    | none => simp [pass1, happs, p1trace, ih hrest]
    | some a =>
      have hj : a.core.hookF stage = none := h1 j (List.mem_cons_self j rest) a happs
      simp [pass1, happs, runStage_valid _ hv, hj, p1trace, ih hrest, hv]

theorem pass2_nofatal (r : RegistryApps) {stage : String} (hv : stageValid stage)
    (d : Bool) (l : List String)
    (hok : ∀ n ∈ l, isDefaultName n = false →
      scenHookRes r stage d n = none ∨
        ∃ e, scenHookRes r stage d n = some e ∧ e.isUserAppNotFound = true) :
    ∀ errSt, ∃ errSt',
      pass2 r stage d l errSt = .done (p2trace r stage d l) errSt' := by
  induction l with
  | nil => intro errSt; exact ⟨errSt, by simp [pass2, p2trace]⟩
  | cons n rest ih =>
    have hrest : ∀ m ∈ rest, isDefaultName m = false →
        scenHookRes r stage d m = none ∨
          ∃ e, scenHookRes r stage d m = some e ∧ e.isUserAppNotFound = true :=
      fun m hm => hok m (List.mem_cons_of_mem _ hm)
    intro errSt
    by_cases hdef : isDefaultName n
    · obtain ⟨errSt', hrec⟩ := ih hrest errSt
      exact ⟨errSt', by simp [pass2, hdef, p2trace, hrec]⟩
    · have hres := hok n (List.mem_cons_self n rest) (by simpa using hdef)
      rcases hres with hres | ⟨e, hres, hue⟩
      · obtain ⟨errSt', hrec⟩ := ih hrest none
        refine ⟨errSt', ?_⟩
        have hhook : ((GetApp r n).initF n d).1.hookF stage = none := by
          simpa [scenHookRes, hv, scenCore] using hres
        simp [pass2, hdef, runStage_valid _ hv, p2trace, hrec, hv,
          scenCore, statusOfErr, scenHookRes, hhook]
      · obtain ⟨errSt', hrec⟩ := ih hrest (some e)
        refine ⟨errSt', ?_⟩
        have hhook : ((GetApp r n).initF n d).1.hookF stage = some e := by
          simpa [scenHookRes, hv, scenCore] using hres
        simp [pass2, hdef, runStage_valid _ hv, p2trace, hrec, hv,
          scenCore, statusOfErr, scenHookRes, hhook, hue]

theorem pass2_invalid (r : RegistryApps) {stage : String}
    (hv : ¬ stageValid stage) (d : Bool) (l : List String) :
    pass2 r stage d l none = .done (p2trace r stage d l) none := by
  induction l with
  | nil => simp [pass2, p2trace]
  | cons n rest ih =>
    by_cases hdef : isDefaultName n
    · simp [pass2, hdef, p2trace, ih]
    · simp [pass2, hdef, runStage_invalid _ hv, p2trace, ih, hv,
        scenCore, statusOfErr, scenHookRes]

theorem pass2_fatal (r : RegistryApps) {stage : String} (hv : stageValid stage)
    (d : Bool) (l1 : List String) (x : String) (l2 : List String)
    (h1 : ∀ n ∈ l1, isDefaultName n = false →
      scenHookRes r stage d n = none ∨
        ∃ e, scenHookRes r stage d n = some e ∧ e.isUserAppNotFound = true)
    (hx : isDefaultName x = false) (e : Err)
    (he : scenHookRes r stage d x = some e) (hne : e.isUserAppNotFound = false) :
    ∀ errSt,
      pass2 r stage d (l1 ++ x :: l2) errSt =
        .ret (p2trace r stage d l1 ++
          [Event.initCall x d ((GetApp r x).initF x d).2,
            Event.scenHook x stage,
            Event.report .failed (scenCore r x d).nameF stage false])
          (expWrap (scenCore r x d).nameF stage e) := by
  induction l1 with
  | nil =>
    intro errSt
    have hhook : ((GetApp r x).initF x d).1.hookF stage = some e := by
      simpa [scenHookRes, hv, scenCore] using he
    simp [pass2, hx, runStage_valid _ hv, p2trace, hv, scenCore, hhook, hne]
  | cons n rest ih =>
    have hrest : ∀ m ∈ rest, isDefaultName m = false →
        scenHookRes r stage d m = none ∨
          ∃ e, scenHookRes r stage d m = some e ∧ e.isUserAppNotFound = true :=
      fun m hm => h1 m (List.mem_cons_of_mem _ hm)
    intro errSt
    by_cases hdef : isDefaultName n
    · simpa [pass2, hdef, p2trace] using ih hrest errSt
    · have hres := h1 n (List.mem_cons_self n rest) (by simpa using hdef)
      rcases hres with hres | ⟨e', hres, hue⟩
      · have hhook : ((GetApp r n).initF n d).1.hookF stage = none := by
          simpa [scenHookRes, hv, scenCore] using hres
        simp [pass2, hdef, runStage_valid _ hv, p2trace, hv,
          scenCore, statusOfErr, scenHookRes, hhook, ih hrest none]
      · have hhook : ((GetApp r n).initF n d).1.hookF stage = some e' := by
          simpa [scenHookRes, hv, scenCore] using hres
        simp [pass2, hdef, runStage_valid _ hv, p2trace, hv,
          scenCore, statusOfErr, scenHookRes, hhook, hue, ih hrest (some e')]

theorem p1trace_mem (r : RegistryApps) (stage : String) (order : List String) :
    ∀ ev ∈ p1trace r stage order,
      (∃ k, k ∈ order ∧ ev = .defHook k stage) ∨
        (∃ st n, ev = .report st n stage true) := by
  induction order with
  | nil => simp [p1trace]
  | cons k rest ih =>
    intro ev hev
    simp only [p1trace, List.mem_append] at hev
    rcases hev with hev | hev
    · cases happs : apps r k with
      | none => simp [happs] at hev
      | some a =>
        rw [happs] at hev
        by_cases hv : stageValid stage
        · simp [hv] at hev
          rcases hev with hev | hev
          · exact Or.inl ⟨k, List.mem_cons_self k rest, hev⟩
          · exact Or.inr ⟨.ok, a.core.nameF, hev⟩
        · simp [hv] at hev
          exact Or.inr ⟨.ok, a.core.nameF, hev⟩
    · rcases ih ev hev with ⟨k', hk', hev'⟩ | h
      · exact Or.inl ⟨k', List.mem_cons_of_mem _ hk', hev'⟩
      · exact Or.inr h

theorem p2trace_mem (r : RegistryApps) (stage : String) (d : Bool)
    (l : List String) :
    ∀ ev ∈ p2trace r stage d l,
      (∃ n e, n ∈ l ∧ ev = .initCall n d e) ∨
        (∃ n, n ∈ l ∧ ev = .scenHook n stage) ∨
        (∃ st n, ev = .report st n stage false) := by
  induction l with
  | nil => simp [p2trace]
  | cons n rest ih =>
    intro ev hev
    simp only [p2trace, List.mem_append] at hev
    rcases hev with hev | hev
    · by_cases hdef : isDefaultName n
      · simp [hdef] at hev
      · by_cases hv : stageValid stage
        · simp [hdef, hv] at hev
          rcases hev with hev | hev | hev
          · exact Or.inl ⟨n, _, List.mem_cons_self n rest, hev⟩
          · exact Or.inr (Or.inl ⟨n, List.mem_cons_self n rest, hev⟩)
          · exact Or.inr (Or.inr ⟨_, _, hev⟩)
        · simp [hdef, hv] at hev
          rcases hev with hev | hev
          · exact Or.inl ⟨n, _, List.mem_cons_self n rest, hev⟩
          · exact Or.inr (Or.inr ⟨_, _, hev⟩)
    · rcases ih ev hev with ⟨n', e', hn', hev'⟩ | ⟨n', hn', hev'⟩ | h
      · exact Or.inl ⟨n', e', List.mem_cons_of_mem _ hn', hev'⟩
      · exact Or.inr (Or.inl ⟨n', List.mem_cons_of_mem _ hn', hev'⟩)
      · exact Or.inr (Or.inr h)

theorem setDefaults_not_mem_p1trace (r : RegistryApps) (stage : String)
    (order : List String) : Event.setDefaults ∉ p1trace r stage order := by
  intro h
  rcases p1trace_mem r stage order _ h with ⟨k, _, hk⟩ | ⟨st, n, hn⟩ <;> simp_all

theorem setDefaults_not_mem_p2trace (r : RegistryApps) (stage : String)
    (d : Bool) (l : List String) : Event.setDefaults ∉ p2trace r stage d l := by
  intro h
  rcases p2trace_mem r stage d l _ h with ⟨n, e, _, hn⟩ | ⟨n, _, hn⟩ | ⟨st, n, hn⟩ <;>
    simp_all

theorem scenHook_not_mem_p1trace (r : RegistryApps) (stage : String)
    (order : List String) (n s : String) :
    Event.scenHook n s ∉ p1trace r stage order := by
  intro h
  rcases p1trace_mem r stage order _ h with ⟨k, _, hk⟩ | ⟨st, m, hm⟩ <;> simp_all

theorem initCall_not_mem_p1trace (r : RegistryApps) (stage : String)
    (order : List String) (n : String) (d : Bool) (e : Option Err) :
    Event.initCall n d e ∉ p1trace r stage order := by
  intro h
  rcases p1trace_mem r stage order _ h with ⟨k, _, hk⟩ | ⟨st, m, hm⟩ <;> simp_all

theorem defHook_not_mem_p2trace (r : RegistryApps) (stage : String) (d : Bool)
    (l : List String) (k s : String) :
    Event.defHook k s ∉ p2trace r stage d l := by
  intro h
  rcases p2trace_mem r stage d l _ h with ⟨n, e, _, hn⟩ | ⟨n, _, hn⟩ | ⟨st, n, hn⟩ <;>
    simp_all

theorem scenHookNames_p1trace (r : RegistryApps) (stage : String)
    (order : List String) : scenHookNames (p1trace r stage order) = [] := by
  rw [scenHookNames, List.filterMap_eq_nil_iff]
  intro ev hev
  rcases p1trace_mem r stage order _ hev with ⟨k, _, hk⟩ | ⟨st, n, hn⟩ <;> simp_all

theorem scenHookNames_p2trace (r : RegistryApps) {stage : String}
    (hv : stageValid stage) (d : Bool) (l : List String) :
    scenHookNames (p2trace r stage d l) = l.filter (fun n => !isDefaultName n) := by
  induction l with
  | nil => simp [p2trace, scenHookNames]
  | cons n rest ih =>
    by_cases hdef : isDefaultName n
    · simp [p2trace, hdef, scenHookNames, List.filterMap_append] at ih ⊢
      exact ih
    · simp [p2trace, hdef, hv, scenHookNames, List.filterMap_append] at ih ⊢
      exact ih

theorem scenHookNames_p2trace_invalid (r : RegistryApps) {stage : String}
    (hv : ¬ stageValid stage) (d : Bool) (l : List String) :
    scenHookNames (p2trace r stage d l) = [] := by
  induction l with
  | nil => simp [p2trace, scenHookNames]
  | cons n rest ih =>
    by_cases hdef : isDefaultName n
    · simp [p2trace, hdef, scenHookNames, List.filterMap_append] at ih ⊢
      exact ih
    · simp [p2trace, hdef, hv, scenHookNames, List.filterMap_append] at ih ⊢
      exact ih

theorem reportsOf_p1trace (r : RegistryApps) (stage : String)
    (order : List String) :
    reportsOf (p1trace r stage order) =
      order.filterMap
        (fun k => (apps r k).map (fun a => (Status.ok, a.core.nameF, stage, true))) := by
  induction order with
  | nil => simp [p1trace, reportsOf]
  | cons k rest ih =>
    cases happs : apps r k with
    | none => simp [p1trace, happs, reportsOf, List.filterMap_append] at ih ⊢; exact ih
    | some a =>
      by_cases hv : stageValid stage <;>
        · simp [p1trace, happs, hv, reportsOf, List.filterMap_append] at ih ⊢
          exact ih

theorem reportsOf_p2trace (r : RegistryApps) (stage : String) (d : Bool)
    (l : List String) :
    reportsOf (p2trace r stage d l) =
      (l.filter (fun n => !isDefaultName n)).map
        (fun n => (statusOfErr (scenHookRes r stage d n),
          (scenCore r n d).nameF, stage, false)) := by
  induction l with
  | nil => simp [p2trace, reportsOf]
  | cons n rest ih =>
    by_cases hdef : isDefaultName n
    · simp [p2trace, hdef, reportsOf, List.filterMap_append] at ih ⊢
      exact ih
    · by_cases hv : stageValid stage <;>
        · simp [p2trace, hdef, hv, reportsOf, List.filterMap_append] at ih ⊢
          exact ih

theorem ApplyApps_nofatal (r : RegistryApps) (defOrder : List String)
    (exp : Experiment) (opts : List AppOption)
    (hv : stageValid (NewOptions opts).stage)
    (hd : ∀ k ∈ defOrder, ∀ a, apps r k = some a →
      a.core.hookF (NewOptions opts).stage = none)
    (hs : ∀ sapps, exp.scenario = some sapps → ∀ n ∈ sapps,
      isDefaultName n = false →
        scenHookRes r (NewOptions opts).stage (NewOptions opts).dryRun n = none ∨
          ∃ e, scenHookRes r (NewOptions opts).stage (NewOptions opts).dryRun n
              = some e ∧ e.isUserAppNotFound = true) :
    ApplyApps r defOrder exp opts =
      (p1trace r (NewOptions opts).stage defOrder ++
        scenTrace r (NewOptions opts).stage (NewOptions opts).dryRun exp ++
        sdTrace (NewOptions opts).stage, none) := by
  cases hsc : exp.scenario with
  | none =>
    simp [ApplyApps, pass1_succ r hv defOrder hd, hsc, scenTrace, sdTrace]
  | some l =>
    obtain ⟨errSt', h2⟩ :=
      pass2_nofatal r hv (NewOptions opts).dryRun l (hs l hsc) none
    simp [ApplyApps, pass1_succ r hv defOrder hd, hsc, h2, scenTrace, sdTrace]

theorem ApplyApps_invalidStage (r : RegistryApps) (defOrder : List String)
    (exp : Experiment) (opts : List AppOption)
    (hv : ¬ stageValid (NewOptions opts).stage) :
    ApplyApps r defOrder exp opts =
      (p1trace r (NewOptions opts).stage defOrder ++
        scenTrace r (NewOptions opts).stage (NewOptions opts).dryRun exp ++
        sdTrace (NewOptions opts).stage, none) := by
  have h1 : ¬ (NewOptions opts).stage = ACTIONCONFIG := fun h => hv (Or.inl h)
  have h2 : ¬ (NewOptions opts).stage = ACTIONPRESTART :=
    fun h => hv (Or.inr (Or.inl h))
  cases hsc : exp.scenario with
  | none =>
    simp [ApplyApps, pass1_invalid r hv defOrder, hsc, scenTrace, sdTrace, h1, h2]
  | some l =>
    simp [ApplyApps, pass1_invalid r hv defOrder, hsc,
      pass2_invalid r hv (NewOptions opts).dryRun l, scenTrace, sdTrace, h1, h2]

theorem ApplyApps_p1fatal (r : RegistryApps) (exp : Experiment)
    (opts : List AppOption) (hv : stageValid (NewOptions opts).stage)
    (l1 : List String) (k : String) (l2 : List String)
    (h1 : ∀ j ∈ l1, ∀ a, apps r j = some a →
      a.core.hookF (NewOptions opts).stage = none)
    (ak : App) (hk : apps r k = some ak) (e : Err)
    (he : ak.core.hookF (NewOptions opts).stage = some e) :
    ApplyApps r (l1 ++ k :: l2) exp opts =
      (p1trace r (NewOptions opts).stage l1 ++
        [Event.defHook k (NewOptions opts).stage,
          Event.report .failed ak.core.nameF (NewOptions opts).stage true],
        some (defaultWrap ak.core.nameF (NewOptions opts).stage e)) := by
  simp [ApplyApps, pass1_fatal r hv l1 k l2 h1 ak hk e he]

theorem ApplyApps_p2fatal (r : RegistryApps) (defOrder : List String)
    (opts : List AppOption) (hv : stageValid (NewOptions opts).stage)
    (hd : ∀ k ∈ defOrder, ∀ a, apps r k = some a →
      a.core.hookF (NewOptions opts).stage = none)
    (l1 : List String) (x : String) (l2 : List String)
    (h1 : ∀ n ∈ l1, isDefaultName n = false →
      scenHookRes r (NewOptions opts).stage (NewOptions opts).dryRun n = none ∨
        ∃ e, scenHookRes r (NewOptions opts).stage (NewOptions opts).dryRun n
            = some e ∧ e.isUserAppNotFound = true)
    (hx : isDefaultName x = false) (e : Err)
    (he : scenHookRes r (NewOptions opts).stage (NewOptions opts).dryRun x = some e)
    (hne : e.isUserAppNotFound = false) :
    ApplyApps r defOrder ⟨some (l1 ++ x :: l2)⟩ opts =
      (p1trace r (NewOptions opts).stage defOrder ++
        (p2trace r (NewOptions opts).stage (NewOptions opts).dryRun l1 ++
          [Event.initCall x (NewOptions opts).dryRun
              ((GetApp r x).initF x (NewOptions opts).dryRun).2,
            Event.scenHook x (NewOptions opts).stage,
            Event.report .failed
              (scenCore r x (NewOptions opts).dryRun).nameF
              (NewOptions opts).stage false]),
        some (expWrap (scenCore r x (NewOptions opts).dryRun).nameF
          (NewOptions opts).stage e)) := by
  simp [ApplyApps, pass1_succ r hv defOrder hd,
    pass2_fatal r hv (NewOptions opts).dryRun l1 x l2 h1 hx e he hne none]

theorem p1trace_count (r : RegistryApps) {stage : String} (hv : stageValid stage)
    (order : List String) (hreg : ∀ j ∈ order, (apps r j).isSome = true)
    (k : String) :
    (p1trace r stage order).count (Event.defHook k stage) = order.count k := by
  induction order with
  | nil => simp [p1trace]
  | cons j rest ih =>
    obtain ⟨a, ha⟩ :=
      Option.isSome_iff_exists.mp (hreg j (List.mem_cons_self j rest))
    have hrest : ∀ i ∈ rest, (apps r i).isSome = true :=
      fun i hi => hreg i (List.mem_cons_of_mem _ hi)
    by_cases hkj : k = j
    · subst hkj
      simp [p1trace, ha, hv, List.count_append, List.count_cons, ih hrest]
    · simp [p1trace, ha, hv, List.count_append, List.count_cons, ih hrest,
        hkj, Ne.symm hkj]

theorem defaultNames_registered (r : RegistryApps) :
    ∀ k ∈ defaultNames, (apps r k).isSome = true := by
  intro k hk
  simp only [defaultNames, List.mem_cons, List.not_mem_nil, or_false] at hk
  rcases hk with rfl | rfl | rfl | rfl <;> simp +decide [apps]

theorem defHook_not_mem_p1trace_invalid (r : RegistryApps) {stage : String}
    (hv : ¬ stageValid stage) (order : List String) (k s : String) :
    Event.defHook k s ∉ p1trace r stage order := by
  induction order with
  | nil => simp [p1trace]
  | cons j rest ih =>
    cases happs : apps r j with
    | none => simpa [p1trace, happs] using ih
    | some a => simp [p1trace, happs, hv, ih]

theorem scenHook_mem_scenHookNames {tr : List Event} {n s : String}
    (h : Event.scenHook n s ∈ tr) : n ∈ scenHookNames tr := by
  rw [scenHookNames, List.mem_filterMap]
  exact ⟨Event.scenHook n s, h, rfl⟩

theorem scenHook_mem_p2trace (r : RegistryApps) {stage : String}
    (hv : stageValid stage) (d : Bool) {l : List String} {n : String}
    (hn : n ∈ l) (hdef : isDefaultName n = false) :
    Event.scenHook n stage ∈ p2trace r stage d l := by
  induction l with
  | nil => simp at hn
  | cons m rest ih =>
    rcases List.mem_cons.mp hn with rfl | hn'
    · simp [p2trace, hdef, hv]
    · by_cases hm : isDefaultName m <;>
        simp [p2trace, hm, hv, ih hn']

theorem report_mem_p2trace (r : RegistryApps) {stage : String}
    (hv : stageValid stage) (d : Bool) {l : List String} {n : String}
    (hn : n ∈ l) (hdef : isDefaultName n = false) :
    Event.report (statusOfErr (scenHookRes r stage d n))
      (scenCore r n d).nameF stage false ∈ p2trace r stage d l := by
  induction l with
  | nil => simp at hn
  | cons m rest ih =>
    rcases List.mem_cons.mp hn with rfl | hn'
    · simp [p2trace, hdef, hv]
    · by_cases hm : isDefaultName m <;>
        simp [p2trace, hm, hv, ih hn']

theorem scenReports_p1trace (r : RegistryApps) (stage : String)
    (order : List String) : scenReports (p1trace r stage order) = [] := by
  induction order with
  | nil => simp [p1trace, scenReports]
  | cons j rest ih =>
    cases happs : apps r j with
    | none => simp [p1trace, happs, scenReports, List.filterMap_append] at ih ⊢; exact ih
    | some a =>
      by_cases hv : stageValid stage <;>
        · simp [p1trace, happs, hv, scenReports, List.filterMap_append] at ih ⊢
          exact ih

theorem scenReports_p2trace (r : RegistryApps) (stage : String) (d : Bool)
    (l : List String) :
    scenReports (p2trace r stage d l) =
      (l.filter (fun n => !isDefaultName n)).map
        (fun n => (statusOfErr (scenHookRes r stage d n), (scenCore r n d).nameF)) := by
  induction l with
  | nil => simp [p2trace, scenReports]
  | cons n rest ih =>
    by_cases hdef : isDefaultName n
    · simp [p2trace, hdef, scenReports, List.filterMap_append] at ih ⊢
      exact ih
    · by_cases hv : stageValid stage <;>
        · simp [p2trace, hdef, hv, scenReports, List.filterMap_append] at ih ⊢
          exact ih

theorem apps_withInitErr (r : RegistryApps) (g : String → Bool → Option Err)
    (k : String) :
    apps (r.withInitErr g) k = (apps r k).map (fun a => a.withInitErr g) := by
  simp only [apps, RegistryApps.withInitErr]
  split_ifs <;> rfl

theorem core_withInitErr (a : App) (g : String → Bool → Option Err) :
    (a.withInitErr g).core = a.core := rfl

theorem initF_withInitErr (a : App) (g : String → Bool → Option Err)
    (n : String) (d : Bool) :
    (a.withInitErr g).initF n d = ((a.initF n d).1, g n d) := rfl

theorem GetApp_withInitErr (r : RegistryApps) (g : String → Bool → Option Err)
    (n : String) :
    GetApp (r.withInitErr g) n = (GetApp r n).withInitErr g := by
  unfold GetApp
  rw [apps_withInitErr]
  cases h : apps r n <;> rfl

theorem pass1_withInitErr (r : RegistryApps) (g : String → Bool → Option Err)
    (stage : String) : ∀ (order : List String) (errSt : Option Err),
    pass1 (r.withInitErr g) stage order errSt = pass1 r stage order errSt := by
  intro order
  induction order with
  | nil => intro errSt; rfl
  | cons k rest ih =>
    intro errSt
    cases h : apps r k with
    | none => simp [pass1, apps_withInitErr, h, ih]
    | some a => simp [pass1, apps_withInitErr, h, core_withInitErr, ih]

theorem pass2_withInitErr (r : RegistryApps) (g : String → Bool → Option Err)
    (stage : String) (d : Bool) : ∀ (l : List String) (errSt : Option Err),
    (pass2 (r.withInitErr g) stage d l errSt).scrub =
      (pass2 r stage d l errSt).scrub := by
  intro l
  induction l with
  | nil => intro errSt; rfl
  | cons n rest ih =>
    intro errSt
    by_cases hdef : isDefaultName n
    · simpa [pass2, hdef] using ih errSt
    · have hini : (GetApp (r.withInitErr g) n).initF n d =
          (((GetApp r n).initF n d).1, g n d) := by
        rw [GetApp_withInitErr]; rfl
      cases hq : (runStage ((GetApp r n).initF n d).1 stage errSt).1 with
      | none =>
        have h1 := ih (none : Option Err)
        cases h1' : pass2 (r.withInitErr g) stage d rest none with
        | done evs1 es1 =>
          cases h2' : pass2 r stage d rest none with
          | done evs2 es2 =>
            rw [h1', h2'] at h1
            simp only [PassOut.scrub, PassOut.done.injEq] at h1
            simp [pass2, hdef, hini, hq, h1', h2', PassOut.scrub, scrubInitRes,
              h1.1, h1.2]
          | ret evs2 e2 =>
            rw [h1', h2'] at h1
            simp [PassOut.scrub] at h1
        | ret evs1 e1 =>
          cases h2' : pass2 r stage d rest none with
          | done evs2 es2 =>
            rw [h1', h2'] at h1
            simp [PassOut.scrub] at h1
          | ret evs2 e2 =>
            rw [h1', h2'] at h1
            simp only [PassOut.scrub, PassOut.ret.injEq] at h1
            simp [pass2, hdef, hini, hq, h1', h2', PassOut.scrub, scrubInitRes,
              h1.1, h1.2]
      | some e =>
        by_cases hue : e.isUserAppNotFound
        · have h1 := ih (some e)
          cases h1' : pass2 (r.withInitErr g) stage d rest (some e) with
          | done evs1 es1 =>
            cases h2' : pass2 r stage d rest (some e) with
            | done evs2 es2 =>
              rw [h1', h2'] at h1
              simp only [PassOut.scrub, PassOut.done.injEq] at h1
              simp [pass2, hdef, hini, hq, hue, h1', h2', PassOut.scrub,
                scrubInitRes, h1.1, h1.2]
            | ret evs2 e2 =>
              rw [h1', h2'] at h1
              simp [PassOut.scrub] at h1
          | ret evs1 e1 =>
            cases h2' : pass2 r stage d rest (some e) with
            | done evs2 es2 =>
              rw [h1', h2'] at h1
              simp [PassOut.scrub] at h1
            | ret evs2 e2 =>
              rw [h1', h2'] at h1
              simp only [PassOut.scrub, PassOut.ret.injEq] at h1
              simp [pass2, hdef, hini, hq, hue, h1', h2', PassOut.scrub,
                scrubInitRes, h1.1, h1.2]
        · simp [pass2, hdef, hini, hq, hue, PassOut.scrub, scrubInitRes]

theorem scenHookNames_map_scrub (tr : List Event) :
    scenHookNames (tr.map scrubInitRes) = scenHookNames tr := by
  induction tr with
  | nil => rfl
  | cons ev rest ih =>
    cases ev <;> simp [scenHookNames, scrubInitRes] at ih ⊢ <;> exact ih

theorem reportsOf_map_scrub (tr : List Event) :
    reportsOf (tr.map scrubInitRes) = reportsOf tr := by
  induction tr with
  | nil => rfl
  | cons ev rest ih =>
    cases ev <;> simp [reportsOf, scrubInitRes] at ih ⊢ <;> exact ih

theorem scenHookNames_append (a b : List Event) :
    scenHookNames (a ++ b) = scenHookNames a ++ scenHookNames b := by
  simp [scenHookNames, List.filterMap_append]

theorem reportsOf_append (a b : List Event) :
    reportsOf (a ++ b) = reportsOf a ++ reportsOf b := by
  simp [reportsOf, List.filterMap_append]

theorem scenReports_append (a b : List Event) :
    scenReports (a ++ b) = scenReports a ++ scenReports b := by
  simp [scenReports, List.filterMap_append]

theorem sdTrace_invalid {s : String} (hv : ¬ stageValid s) : sdTrace s = [] := by
  have h1 : ¬ s = ACTIONCONFIG := fun h => hv (Or.inl h)
  have h2 : ¬ s = ACTIONPRESTART := fun h => hv (Or.inr (Or.inl h))
  simp [sdTrace, h1, h2]

theorem scenHookNames_sdTrace (s : String) : scenHookNames (sdTrace s) = [] := by
  by_cases h : s = ACTIONCONFIG ∨ s = ACTIONPRESTART <;>
    simp [sdTrace, h, scenHookNames]

theorem reportsOf_sdTrace (s : String) : reportsOf (sdTrace s) = [] := by
  by_cases h : s = ACTIONCONFIG ∨ s = ACTIONPRESTART <;>
    simp [sdTrace, h, reportsOf]

theorem scenReports_sdTrace (s : String) : scenReports (sdTrace s) = [] := by
  by_cases h : s = ACTIONCONFIG ∨ s = ACTIONPRESTART <;>
    simp [sdTrace, h, scenReports]

theorem count_defHook_sdTrace (s k s' : String) :
    (sdTrace s).count (Event.defHook k s') = 0 := by
  by_cases h : s = ACTIONCONFIG ∨ s = ACTIONPRESTART <;> simp [sdTrace, h]

theorem count_setDefaults_sdTrace (s : String) :
    (sdTrace s).count Event.setDefaults =
      if s = ACTIONCONFIG ∨ s = ACTIONPRESTART then 1 else 0 := by
  by_cases h : s = ACTIONCONFIG ∨ s = ACTIONPRESTART <;> simp [sdTrace, h]

theorem isDefaultName_iff_mem (n : String) :
    isDefaultName n = true ↔ n ∈ defaultNames := by
  exact List.elem_iff

theorem initCall_mem_p2trace_nondefault (r : RegistryApps) (stage : String)
    (d : Bool) (l : List String) :
    ∀ n d' ie, Event.initCall n d' ie ∈ p2trace r stage d l →
      isDefaultName n = false := by
  induction l with
  | nil => simp [p2trace]
  | cons m rest ih =>
    intro n d' ie hmem
    simp only [p2trace, List.mem_append] at hmem
    rcases hmem with hmem | hmem
    · by_cases hm : isDefaultName m
      · simp [hm] at hmem
      · by_cases hv : stageValid stage
        · simp [hm, hv] at hmem
          rcases hmem with ⟨rfl, _, _⟩ | hmem | hmem <;> simp_all
        · simp [hm, hv] at hmem
          rcases hmem with ⟨rfl, _, _⟩ | hmem <;> simp_all
    · exact ih n d' ie hmem

theorem listFold_all_skipped :
    ∀ (l : List String),
      (∀ n ∈ l, n = "user-shell" ∨ isDefaultName n = true) →
      ∀ acc : List String,
        l.foldl
          (fun acc name =>
            if name = "user-shell" then acc
            else if isDefaultName name then acc
            else acc ++ [name]) acc = acc := by
  intro l
  induction l with
  | nil => intro _ _; rfl
  | cons n rest ih =>
    intro h acc
    have hrest : ∀ m ∈ rest, m = "user-shell" ∨ isDefaultName m = true :=
      fun m hm => h m (List.mem_cons_of_mem _ hm)
    rcases h n (List.mem_cons_self n rest) with h1 | h1
    · simp [List.foldl_cons, h1, ih hrest]
    · by_cases h2 : n = "user-shell"
      · simp [List.foldl_cons, h2, ih hrest]
      · simp [List.foldl_cons, h2, h1, ih hrest]

/-- C7: GetApp is total: for every name it yields the app registered under
that name when one exists and otherwise the instance registered under the
distinguished fallback name user-shell (the external command adapter), which
is always present in the registry. -/
theorem getApp_total_with_fallback (r : RegistryApps) (name : String) :
    GetApp r name = (apps r name).getD r.userShell ∧
      apps r "user-shell" = some r.userShell := by
  constructor
  · cases h : apps r name <;> simp [GetApp, h]
  · simp +decide [apps]

/-- C8 counterexample: List is a concatenation, not a deduplicated union:
when the command-search collaborator reports the same external name twice,
the returned list contains that name twice, so the claimed no-duplicates
union property fails on the registry built by init(). -/
theorem listApps_not_nodup_counterexample :
    ListApps registryKeys ["extra", "extra"] = ["extra", "extra"] ∧
      ¬ (ListApps registryKeys ["extra", "extra"]).Nodup := by
  constructor
  · rfl
  · decide

/-- C8 amended: List returns the registered names that are neither the
fallback adapter nor default names — an empty collection for the registry
built by init() — followed by the names the command-search collaborator
discovered, in order and with multiplicity: for any iteration order of the
registry map, the result is exactly the discovered-name list. -/
theorem listApps_eq_discovered (regOrder : List String)
    (hperm : regOrder.Perm registryKeys) (discovered : List String) :
    ListApps regOrder discovered = discovered := by
  have hmem : ∀ n ∈ regOrder, n = "user-shell" ∨ isDefaultName n = true := by
    intro n hn
    have : n ∈ registryKeys := hperm.mem_iff.mp hn
    simp only [registryKeys, List.mem_cons, List.not_mem_nil, or_false] at this
    rcases this with rfl | rfl | rfl | rfl | rfl <;> simp +decide [isDefaultName]
  simp [ListApps, listFold_all_skipped regOrder hmem []]

/-- C8 amended witness: at the reference iteration order and a concrete
discovered list the amended statement evaluates as proved. -/
theorem listApps_eq_discovered_witness :
    registryKeys.Perm registryKeys ∧
      ListApps registryKeys ["alpha", "beta"] = ["alpha", "beta"] :=
  ⟨List.Perm.refl _,
    listApps_eq_discovered registryKeys (List.Perm.refl _) ["alpha", "beta"]⟩

theorem scenTrace_none (r : RegistryApps) (s : String) (d : Bool)
    {exp : Experiment} (h : exp.scenario = none) : scenTrace r s d exp = [] := by
  simp [scenTrace, h]

theorem scenTrace_some (r : RegistryApps) (s : String) (d : Bool)
    {exp : Experiment} {l : List String} (h : exp.scenario = some l) :
    scenTrace r s d exp = p2trace r s d l := by
  simp [scenTrace, h]

/-- C10: when ApplyApps is called with a stage that is none of the four
lifecycle actions, no stage hook runs at all (no default-pass and no
scenario-pass hook event), SetDefaults is not invoked, the call returns nil,
and yet every default app and every non-default scenario app is reported
with status ok. -/
theorem applyApps_unknownStage (r : RegistryApps) (defOrder : List String)
    (exp : Experiment) (opts : List AppOption)
    (hv : ¬ stageValid (NewOptions opts).stage) :
    (ApplyApps r defOrder exp opts).2 = none ∧
    (∀ k s, Event.defHook k s ∉ (ApplyApps r defOrder exp opts).1) ∧
    (∀ n s, Event.scenHook n s ∉ (ApplyApps r defOrder exp opts).1) ∧
    Event.setDefaults ∉ (ApplyApps r defOrder exp opts).1 ∧
    reportsOf (ApplyApps r defOrder exp opts).1 =
      defOrder.filterMap (fun k => (apps r k).map
        (fun a => (Status.ok, a.core.nameF, (NewOptions opts).stage, true))) ++
      (match exp.scenario with
       | none => []
       | some l => (l.filter (fun n => !isDefaultName n)).map
           (fun n => (Status.ok,
             (scenCore r n (NewOptions opts).dryRun).nameF,
             (NewOptions opts).stage, false))) := by
  rw [ApplyApps_invalidStage r defOrder exp opts hv, sdTrace_invalid hv]
  refine ⟨rfl, ?_, ?_, ?_, ?_⟩
  · intro k s hmem
    simp only [List.append_nil, List.mem_append] at hmem
    rcases hmem with h | h
    · exact defHook_not_mem_p1trace_invalid r hv defOrder k s h
    · cases hsc : exp.scenario with
      | none => rw [scenTrace_none r _ _ hsc] at h; simp at h
      | some l =>
        rw [scenTrace_some r _ _ hsc] at h
        exact defHook_not_mem_p2trace r _ _ l k s h
  · intro n s hmem
    simp only [List.append_nil, List.mem_append] at hmem
    rcases hmem with h | h
    · exact scenHook_not_mem_p1trace r _ defOrder n s h
    · cases hsc : exp.scenario with
      | none => rw [scenTrace_none r _ _ hsc] at h; simp at h
      | some l =>
        rw [scenTrace_some r _ _ hsc] at h
        have := scenHook_mem_scenHookNames h
        rw [scenHookNames_p2trace_invalid r hv _ l] at this
        simp at this
  · intro hmem
    simp only [List.append_nil, List.mem_append] at hmem
    rcases hmem with h | h
    · exact setDefaults_not_mem_p1trace r _ defOrder h
    · cases hsc : exp.scenario with
      | none => rw [scenTrace_none r _ _ hsc] at h; simp at h
      | some l =>
        rw [scenTrace_some r _ _ hsc] at h
        exact setDefaults_not_mem_p2trace r _ _ l h
  · simp only [List.append_nil]
    rw [reportsOf_append, reportsOf_p1trace]
    cases hsc : exp.scenario with
    | none => rw [scenTrace_none r _ _ hsc]; simp [reportsOf]
    | some l =>
      rw [scenTrace_some r _ _ hsc, reportsOf_p2trace]
      simp [scenHookRes, hv, statusOfErr]

/-- C10 witness: a call with empty options (so the zero-valued stage, which
is not one of the four actions) on the all-ok registry with a one-app
scenario returns nil and reports everything ok without running a hook. -/
theorem applyApps_unknownStage_witness :
    ¬ stageValid (NewOptions ([] : List AppOption)).stage ∧
    (ApplyApps okRegistry defaultNames ⟨some ["extra"]⟩ []).2 = none ∧
    Event.setDefaults ∉ (ApplyApps okRegistry defaultNames ⟨some ["extra"]⟩ []).1 := by
  have hv : ¬ stageValid (NewOptions ([] : List AppOption)).stage := by decide
  have h := applyApps_unknownStage okRegistry defaultNames ⟨some ["extra"]⟩ [] hv
  exact ⟨hv, h.1, h.2.2.2.1⟩

/-- C1: for any of the four lifecycle actions, when the experiment has no
scenario (and the default hooks succeed, the failing case being claim C2),
ApplyApps invokes the stage hook of each of the four default apps exactly
once, and SetDefaults exactly once if and only if the stage is configure or
pre-start. -/
theorem applyApps_noScenario_each_default_once (r : RegistryApps)
    (defOrder : List String) (opts : List AppOption)
    (hperm : defOrder.Perm defaultNames)
    (hv : stageValid (NewOptions opts).stage)
    (hd : ∀ k ∈ defOrder, ∀ a, apps r k = some a →
      a.core.hookF (NewOptions opts).stage = none) :
    (∀ k ∈ defaultNames,
      (ApplyApps r defOrder ⟨none⟩ opts).1.count
        (Event.defHook k (NewOptions opts).stage) = 1) ∧
    (ApplyApps r defOrder ⟨none⟩ opts).1.count Event.setDefaults =
      (if (NewOptions opts).stage = ACTIONCONFIG ∨
          (NewOptions opts).stage = ACTIONPRESTART then 1 else 0) := by
  rw [ApplyApps_nofatal r defOrder ⟨none⟩ opts hv hd
    (fun l hl => Option.noConfusion hl)]
  rw [scenTrace_none r _ _ rfl]
  constructor
  · intro k hk
    have hreg : ∀ j ∈ defOrder, (apps r j).isSome = true :=
      fun j hj => defaultNames_registered r j (hperm.mem_iff.mp hj)
    simp only [List.append_nil, List.count_append]
    rw [p1trace_count r hv defOrder hreg k, count_defHook_sdTrace,
      hperm.count_eq k]
    simp only [defaultNames, List.mem_cons, List.not_mem_nil, or_false] at hk
    rcases hk with rfl | rfl | rfl | rfl <;> decide
  · simp only [List.append_nil, List.count_append]
    rw [List.count_eq_zero.mpr (setDefaults_not_mem_p1trace r _ defOrder),
      count_setDefaults_sdTrace]
    simp

/-- C1 witness: the all-ok registry at the configure stage with no scenario
runs each default hook once and SetDefaults once. -/
theorem applyApps_noScenario_each_default_once_witness :
    stageValid (NewOptions [Stage ACTIONCONFIG]).stage ∧
    (∀ k ∈ defaultNames,
      (ApplyApps okRegistry defaultNames ⟨none⟩ [Stage ACTIONCONFIG]).1.count
        (Event.defHook k (NewOptions [Stage ACTIONCONFIG]).stage) = 1) ∧
    (ApplyApps okRegistry defaultNames ⟨none⟩ [Stage ACTIONCONFIG]).1.count
      Event.setDefaults = 1 := by
  have hv : stageValid (NewOptions [Stage ACTIONCONFIG]).stage := Or.inl rfl
  have hd : ∀ k ∈ defaultNames, ∀ a, apps okRegistry k = some a →
      a.core.hookF (NewOptions [Stage ACTIONCONFIG]).stage = none := by
    intro k hk a ha
    simp only [defaultNames, List.mem_cons, List.not_mem_nil, or_false] at hk
    rcases hk with rfl | rfl | rfl | rfl <;>
      · simp +decide [apps, okRegistry] at ha
        rw [← ha]
        rfl
  have h := applyApps_noScenario_each_default_once okRegistry defaultNames
    [Stage ACTIONCONFIG] (List.Perm.refl _) hv hd
  refine ⟨hv, h.1, ?_⟩
  have h2 := h.2
  have hc : (NewOptions [Stage ACTIONCONFIG]).stage = ACTIONCONFIG ∨
      (NewOptions [Stage ACTIONCONFIG]).stage = ACTIONPRESTART := Or.inl rfl
  rw [if_pos hc] at h2
  exact h2

/-- C2: when a default app hook fails at the requested stage, ApplyApps
returns an error wrapping that app name, the stage and the cause; no
scenario app is invoked or even initialized, no later default app hook runs
(every default hook event in the trace belongs to the failing app or to a
predecessor), and SetDefaults is not invoked. -/
theorem applyApps_defaultAppError (r : RegistryApps) (exp : Experiment)
    (opts : List AppOption) (hv : stageValid (NewOptions opts).stage)
    (l1 : List String) (k : String) (l2 : List String)
    (h1 : ∀ j ∈ l1, ∀ a, apps r j = some a →
      a.core.hookF (NewOptions opts).stage = none)
    (ak : App) (hk : apps r k = some ak) (e : Err)
    (he : ak.core.hookF (NewOptions opts).stage = some e) :
    (ApplyApps r (l1 ++ k :: l2) exp opts).2 =
      some (Err.wrapped ("applying default app " ++ ak.core.nameF ++
        " for action " ++ (NewOptions opts).stage) e) ∧
    (∀ n s, Event.scenHook n s ∉ (ApplyApps r (l1 ++ k :: l2) exp opts).1) ∧
    (∀ n d ie, Event.initCall n d ie ∉ (ApplyApps r (l1 ++ k :: l2) exp opts).1) ∧
    Event.setDefaults ∉ (ApplyApps r (l1 ++ k :: l2) exp opts).1 ∧
    (∀ j s, Event.defHook j s ∈ (ApplyApps r (l1 ++ k :: l2) exp opts).1 →
      j ∈ l1 ++ [k]) := by
  rw [ApplyApps_p1fatal r exp opts hv l1 k l2 h1 ak hk e he]
  refine ⟨rfl, ?_, ?_, ?_, ?_⟩
  · intro n s hmem
    simp only [List.mem_append] at hmem
    rcases hmem with h | h
    · exact scenHook_not_mem_p1trace r _ l1 n s h
    · simp at h
  · intro n d ie hmem
    simp only [List.mem_append] at hmem
    rcases hmem with h | h
    · exact initCall_not_mem_p1trace r _ l1 n d ie h
    · simp at h
  · intro hmem
    simp only [List.mem_append] at hmem
    rcases hmem with h | h
    · exact setDefaults_not_mem_p1trace r _ l1 h
    · simp at h
  · intro j s hmem
    simp only [List.mem_append] at hmem
    rcases hmem with h | h
    · rcases p1trace_mem r _ l1 _ h with ⟨k', hk', hev⟩ | ⟨st, n, hev⟩
      · cases hev; exact List.mem_append_left _ hk'
      · cases hev
    · simp only [List.mem_cons, List.not_mem_nil, or_false] at h
      rcases h with h | h
      · cases h; exact List.mem_append_right _ (List.mem_cons_self _ _)
      · cases h

/-- C2 witness: a registry whose ntp app fails at cleanup, iterated with ntp
first: the call returns the wrapped error and neither initializes a scenario
app nor runs SetDefaults. -/
theorem applyApps_defaultAppError_witness :
    stageValid (NewOptions [Stage ACTIONCLEANUP]).stage ∧
    (ApplyApps failRegistry ("ntp" :: ["serial", "startup", "vrouter"])
        ⟨some ["extra"]⟩ [Stage ACTIONCLEANUP]).2 =
      some (Err.wrapped ("applying default app " ++ "ntp" ++
        " for action " ++ ACTIONCLEANUP) (.msg "boom")) ∧
    Event.setDefaults ∉ (ApplyApps failRegistry
      ("ntp" :: ["serial", "startup", "vrouter"])
        ⟨some ["extra"]⟩ [Stage ACTIONCLEANUP]).1 := by
  have hv : stageValid (NewOptions [Stage ACTIONCLEANUP]).stage :=
    Or.inr (Or.inr (Or.inr rfl))
  have h := applyApps_defaultAppError failRegistry ⟨some ["extra"]⟩
    [Stage ACTIONCLEANUP] hv [] "ntp" ["serial", "startup", "vrouter"]
    (fun j hj => absurd hj (List.not_mem_nil j))
    failRegistry.ntp rfl (.msg "boom") rfl
  exact ⟨hv, h.1, h.2.2.2.1⟩

/-- C3: scenario apps whose stage hook fails with the distinguished
unresolved-app error are reported as unresolved (not failed) and do not stop
the pass: every non-default scenario app still gets its hook invoked, and
when no other failure occurs ApplyApps returns nil. -/
theorem applyApps_unresolved_nonfatal (r : RegistryApps) (defOrder : List String)
    (opts : List AppOption) (sapps : List String)
    (hv : stageValid (NewOptions opts).stage)
    (hd : ∀ k ∈ defOrder, ∀ a, apps r k = some a →
      a.core.hookF (NewOptions opts).stage = none)
    (hs : ∀ n ∈ sapps, isDefaultName n = false →
      scenHookRes r (NewOptions opts).stage (NewOptions opts).dryRun n = none ∨
        ∃ e, scenHookRes r (NewOptions opts).stage (NewOptions opts).dryRun n
            = some e ∧ e.isUserAppNotFound = true) :
    (ApplyApps r defOrder ⟨some sapps⟩ opts).2 = none ∧
    (∀ n ∈ sapps, isDefaultName n = false →
      Event.scenHook n (NewOptions opts).stage ∈
        (ApplyApps r defOrder ⟨some sapps⟩ opts).1) ∧
    (∀ n ∈ sapps, isDefaultName n = false →
      ∀ e, scenHookRes r (NewOptions opts).stage (NewOptions opts).dryRun n
          = some e → e.isUserAppNotFound = true →
        Event.report .unresolved (scenCore r n (NewOptions opts).dryRun).nameF
          (NewOptions opts).stage false ∈
          (ApplyApps r defOrder ⟨some sapps⟩ opts).1) := by
  rw [ApplyApps_nofatal r defOrder ⟨some sapps⟩ opts hv hd
    (fun l hl => by cases hl; exact hs)]
  rw [scenTrace_some r _ _ rfl]
  refine ⟨rfl, ?_, ?_⟩
  · intro n hn hndef
    exact List.mem_append_left _ (List.mem_append_right _
      (scenHook_mem_p2trace r hv _ hn hndef))
  · intro n hn hndef e he hue
    have hrep := report_mem_p2trace r hv (NewOptions opts).dryRun hn hndef
    rw [he] at hrep
    simp only [statusOfErr, hue, if_pos] at hrep
    exact List.mem_append_left _ (List.mem_append_right _ hrep)

/-- C3 witness: a registry whose fallback adapter reports unresolved, with a
scenario naming the unknown app mystery at configure: the call returns nil
and the trace reports mystery as unresolved. -/
theorem applyApps_unresolved_nonfatal_witness :
    stageValid (NewOptions [Stage ACTIONCONFIG]).stage ∧
    (ApplyApps unresolvedRegistry defaultNames ⟨some ["mystery"]⟩
      [Stage ACTIONCONFIG]).2 = none ∧
    Event.report .unresolved "mystery" (NewOptions [Stage ACTIONCONFIG]).stage
        false ∈
      (ApplyApps unresolvedRegistry defaultNames ⟨some ["mystery"]⟩
        [Stage ACTIONCONFIG]).1 := by
  have hv : stageValid (NewOptions [Stage ACTIONCONFIG]).stage := Or.inl rfl
  have hd : ∀ k ∈ defaultNames, ∀ a, apps unresolvedRegistry k = some a →
      a.core.hookF (NewOptions [Stage ACTIONCONFIG]).stage = none := by
    intro k hk a ha
    simp only [defaultNames, List.mem_cons, List.not_mem_nil, or_false] at hk
    rcases hk with rfl | rfl | rfl | rfl <;>
      · simp +decide [apps, unresolvedRegistry, okRegistry] at ha
        rw [← ha]
        rfl
  have hs : ∀ n ∈ ["mystery"], isDefaultName n = false →
      scenHookRes unresolvedRegistry (NewOptions [Stage ACTIONCONFIG]).stage
        (NewOptions [Stage ACTIONCONFIG]).dryRun n = none ∨
      ∃ e, scenHookRes unresolvedRegistry (NewOptions [Stage ACTIONCONFIG]).stage
          (NewOptions [Stage ACTIONCONFIG]).dryRun n = some e ∧
        e.isUserAppNotFound = true := by
    intro n hn _
    simp only [List.mem_cons, List.not_mem_nil, or_false] at hn
    subst hn
    exact Or.inr ⟨.userAppNotFound, by decide, rfl⟩
  have h := applyApps_unresolved_nonfatal unresolvedRegistry defaultNames
    [Stage ACTIONCONFIG] ["mystery"] hv hd hs
  refine ⟨hv, h.1, ?_⟩
  have := h.2.2 "mystery" (List.mem_cons_self _ _) (by decide) .userAppNotFound
    (by decide) rfl
  exact this

/-- C4: when a scenario app X fails with a non-unresolved error, the next
scenario app Y is never invoked and the return value wraps the name X and
the requested stage around the cause (X being the name the resolved app
carries after Init binds it, per the Init identity contract). -/
theorem applyApps_scenarioFatal_stops (r : RegistryApps) (defOrder : List String)
    (opts : List AppOption) (X Y : String)
    (hv : stageValid (NewOptions opts).stage)
    (hd : ∀ k ∈ defOrder, ∀ a, apps r k = some a →
      a.core.hookF (NewOptions opts).stage = none)
    (hX : isDefaultName X = false) (e : Err)
    (he : scenHookRes r (NewOptions opts).stage (NewOptions opts).dryRun X
      = some e)
    (hne : e.isUserAppNotFound = false)
    (hbind : (scenCore r X (NewOptions opts).dryRun).nameF = X) :
    (ApplyApps r defOrder ⟨some [X, Y]⟩ opts).2 =
      some (Err.wrapped ("applying experiment app " ++ X ++ " for action " ++
        (NewOptions opts).stage) e) ∧
    scenHookNames (ApplyApps r defOrder ⟨some [X, Y]⟩ opts).1 = [X] ∧
    (Y ≠ X → ∀ s', Event.scenHook Y s' ∉
      (ApplyApps r defOrder ⟨some [X, Y]⟩ opts).1) := by
  have happ := ApplyApps_p2fatal r defOrder opts hv hd [] X [Y]
    (fun n hn => absurd hn (List.not_mem_nil n)) hX e he hne
  simp only [List.nil_append] at happ
  rw [happ, hbind]
  refine ⟨by simp [expWrap], ?_, ?_⟩
  · rw [scenHookNames_append, scenHookNames_p1trace]
    simp [p2trace, scenHookNames]
  · intro hYX s' hmem
    have := scenHook_mem_scenHookNames hmem
    rw [scenHookNames_append, scenHookNames_p1trace] at this
    simp [p2trace, scenHookNames] at this
    exact hYX this

/-- C4 witness: with a fallback adapter that fails fatally, a scenario of
appx then appy at pre-start stops after appx with the wrapped error. -/
theorem applyApps_scenarioFatal_stops_witness :
    stageValid (NewOptions [Stage ACTIONPRESTART]).stage ∧
    (ApplyApps failingShellRegistry defaultNames ⟨some ["appx", "appy"]⟩
      [Stage ACTIONPRESTART]).2 =
      some (Err.wrapped ("applying experiment app " ++ "appx" ++
        " for action " ++ (NewOptions [Stage ACTIONPRESTART]).stage)
        (.msg "exec failed")) ∧
    scenHookNames (ApplyApps failingShellRegistry defaultNames
      ⟨some ["appx", "appy"]⟩ [Stage ACTIONPRESTART]).1 = ["appx"] := by
  have hv : stageValid (NewOptions [Stage ACTIONPRESTART]).stage :=
    Or.inr (Or.inl rfl)
  have hd : ∀ k ∈ defaultNames, ∀ a, apps failingShellRegistry k = some a →
      a.core.hookF (NewOptions [Stage ACTIONPRESTART]).stage = none := by
    intro k hk a ha
    simp only [defaultNames, List.mem_cons, List.not_mem_nil, or_false] at hk
    rcases hk with rfl | rfl | rfl | rfl <;>
      · simp +decide [apps, failingShellRegistry, okRegistry] at ha
        rw [← ha]
        rfl
  have h := applyApps_scenarioFatal_stops failingShellRegistry defaultNames
    [Stage ACTIONPRESTART] "appx" "appy" hv hd (by decide)
    (.msg "exec failed") rfl (by decide) rfl
  exact ⟨hv, h.1, h.2.1⟩

/-- C5: when no fatal error occurs, the scenario-pass hook invocations are
exactly the scenario's non-default declared names in declared order. -/
theorem applyApps_scenario_declared_order (r : RegistryApps)
    (defOrder : List String) (opts : List AppOption) (sapps : List String)
    (hv : stageValid (NewOptions opts).stage)
    (hd : ∀ k ∈ defOrder, ∀ a, apps r k = some a →
      a.core.hookF (NewOptions opts).stage = none)
    (hs : ∀ n ∈ sapps, isDefaultName n = false →
      scenHookRes r (NewOptions opts).stage (NewOptions opts).dryRun n = none ∨
        ∃ e, scenHookRes r (NewOptions opts).stage (NewOptions opts).dryRun n
            = some e ∧ e.isUserAppNotFound = true) :
    scenHookNames (ApplyApps r defOrder ⟨some sapps⟩ opts).1 =
      sapps.filter (fun n => !isDefaultName n) := by
  rw [ApplyApps_nofatal r defOrder ⟨some sapps⟩ opts hv hd
    (fun l hl => by cases hl; exact hs)]
  rw [scenTrace_some r _ _ rfl]
  rw [scenHookNames_append, scenHookNames_append, scenHookNames_p1trace,
    scenHookNames_p2trace r hv, scenHookNames_sdTrace]
  simp

/-- C5 witness: the all-ok registry with scenario beta then alpha at
configure invokes the scenario hooks in exactly that order. -/
theorem applyApps_scenario_declared_order_witness :
    stageValid (NewOptions [Stage ACTIONCONFIG]).stage ∧
    scenHookNames (ApplyApps okRegistry defaultNames ⟨some ["beta", "alpha"]⟩
      [Stage ACTIONCONFIG]).1 = ["beta", "alpha"] := by
  have hv : stageValid (NewOptions [Stage ACTIONCONFIG]).stage := Or.inl rfl
  have hd : ∀ k ∈ defaultNames, ∀ a, apps okRegistry k = some a →
      a.core.hookF (NewOptions [Stage ACTIONCONFIG]).stage = none := by
    intro k hk a ha
    simp only [defaultNames, List.mem_cons, List.not_mem_nil, or_false] at hk
    rcases hk with rfl | rfl | rfl | rfl <;>
      · simp +decide [apps, okRegistry] at ha
        rw [← ha]
        rfl
  have hs : ∀ n ∈ ["beta", "alpha"], isDefaultName n = false →
      scenHookRes okRegistry (NewOptions [Stage ACTIONCONFIG]).stage
        (NewOptions [Stage ACTIONCONFIG]).dryRun n = none ∨
      ∃ e, scenHookRes okRegistry (NewOptions [Stage ACTIONCONFIG]).stage
          (NewOptions [Stage ACTIONCONFIG]).dryRun n = some e ∧
        e.isUserAppNotFound = true := by
    intro n hn _
    simp only [List.mem_cons, List.not_mem_nil, or_false] at hn
    rcases hn with rfl | rfl <;> exact Or.inl rfl
  have h := applyApps_scenario_declared_order okRegistry defaultNames
    [Stage ACTIONCONFIG] ["beta", "alpha"] hv hd hs
  exact ⟨hv, by rw [h]; rfl⟩

/-- C6: a scenario entry that duplicates a default app name is skipped by
Pass 2: its hook runs only once (in Pass 1), it is neither initialized nor
reported in Pass 2, while a non-default scenario entry is still invoked and
reported there. -/
theorem applyApps_default_in_scenario_skipped (r : RegistryApps)
    (defOrder : List String) (opts : List AppOption) (A B : String)
    (hperm : defOrder.Perm defaultNames)
    (hv : stageValid (NewOptions opts).stage)
    (hd : ∀ k ∈ defOrder, ∀ a, apps r k = some a →
      a.core.hookF (NewOptions opts).stage = none)
    (hA : isDefaultName A = true) (hB : isDefaultName B = false)
    (hBres : scenHookRes r (NewOptions opts).stage (NewOptions opts).dryRun B
      = none) :
    scenHookNames (ApplyApps r defOrder ⟨some [A, B]⟩ opts).1 = [B] ∧
    (ApplyApps r defOrder ⟨some [A, B]⟩ opts).1.count
      (Event.defHook A (NewOptions opts).stage) = 1 ∧
    (∀ d' ie, Event.initCall A d' ie ∉
      (ApplyApps r defOrder ⟨some [A, B]⟩ opts).1) ∧
    scenReports (ApplyApps r defOrder ⟨some [A, B]⟩ opts).1 =
      [(Status.ok, (scenCore r B (NewOptions opts).dryRun).nameF)] := by
  have hs : ∀ n ∈ [A, B], isDefaultName n = false →
      scenHookRes r (NewOptions opts).stage (NewOptions opts).dryRun n = none ∨
        ∃ e, scenHookRes r (NewOptions opts).stage (NewOptions opts).dryRun n
            = some e ∧ e.isUserAppNotFound = true := by
    intro n hn hndef
    rcases List.mem_cons.mp hn with rfl | hn'
    · rw [hA] at hndef; cases hndef
    · simp only [List.mem_cons, List.not_mem_nil, or_false] at hn'
      subst hn'
      exact Or.inl hBres
  rw [ApplyApps_nofatal r defOrder ⟨some [A, B]⟩ opts hv hd
    (fun l hl => by cases hl; exact hs)]
  rw [scenTrace_some r _ _ rfl]
  refine ⟨?_, ?_, ?_, ?_⟩
  · rw [scenHookNames_append, scenHookNames_append, scenHookNames_p1trace,
      scenHookNames_p2trace r hv, scenHookNames_sdTrace]
    simp [List.filter_cons, hA, hB]
  · have hreg : ∀ j ∈ defOrder, (apps r j).isSome = true :=
      fun j hj => defaultNames_registered r j (hperm.mem_iff.mp hj)
    simp only [List.count_append]
    rw [p1trace_count r hv defOrder hreg A,
      List.count_eq_zero.mpr (defHook_not_mem_p2trace r _ _ [A, B] A _),
      count_defHook_sdTrace, hperm.count_eq A]
    have hmem : A ∈ defaultNames := (isDefaultName_iff_mem A).mp hA
    simp only [defaultNames, List.mem_cons, List.not_mem_nil, or_false] at hmem
    rcases hmem with rfl | rfl | rfl | rfl <;> decide
  · intro d' ie hmem
    simp only [List.mem_append] at hmem
    rcases hmem with (h | h) | h
    · exact initCall_not_mem_p1trace r _ defOrder A d' ie h
    · have := initCall_mem_p2trace_nondefault r _ _ [A, B] A d' ie h
      rw [hA] at this
      cases this
    · by_cases hc : (NewOptions opts).stage = ACTIONCONFIG ∨
          (NewOptions opts).stage = ACTIONPRESTART <;> simp [sdTrace, hc] at h
  · rw [scenReports_append, scenReports_append, scenReports_p1trace,
      scenReports_p2trace, scenReports_sdTrace]
    simp [List.filter_cons, hA, hB, hBres, statusOfErr]

/-- C6 witness: the all-ok registry with scenario ntp (a default) then
widget at post-start: only widget is invoked and reported in Pass 2, and ntp
runs exactly once. -/
theorem applyApps_default_in_scenario_skipped_witness :
    stageValid (NewOptions [Stage ACTIONPOSTSTART]).stage ∧
    scenHookNames (ApplyApps okRegistry defaultNames ⟨some ["ntp", "widget"]⟩
      [Stage ACTIONPOSTSTART]).1 = ["widget"] ∧
    (ApplyApps okRegistry defaultNames ⟨some ["ntp", "widget"]⟩
      [Stage ACTIONPOSTSTART]).1.count
      (Event.defHook "ntp" (NewOptions [Stage ACTIONPOSTSTART]).stage) = 1 := by
  have hv : stageValid (NewOptions [Stage ACTIONPOSTSTART]).stage :=
    Or.inr (Or.inr (Or.inl rfl))
  have hd : ∀ k ∈ defaultNames, ∀ a, apps okRegistry k = some a →
      a.core.hookF (NewOptions [Stage ACTIONPOSTSTART]).stage = none := by
    intro k hk a ha
    simp only [defaultNames, List.mem_cons, List.not_mem_nil, or_false] at hk
    rcases hk with rfl | rfl | rfl | rfl <;>
      · simp +decide [apps, okRegistry] at ha
        rw [← ha]
        rfl
  have h := applyApps_default_in_scenario_skipped okRegistry defaultNames
    [Stage ACTIONPOSTSTART] "ntp" "widget" (List.Perm.refl _) hv hd
    (by decide) (by decide) rfl
  exact ⟨hv, h.1, h.2.1⟩

/-- C9: the error a scenario app returns from Init is discarded by
ApplyApps: replacing every Init error (by an arbitrary one, in particular a
non-nil one) changes neither the return value, nor the trace up to the
recorded Init results, nor which scenario hooks are invoked, nor any status
report sent to the sink. -/
theorem applyApps_init_error_discarded (r : RegistryApps)
    (g : String → Bool → Option Err) (defOrder : List String)
    (exp : Experiment) (opts : List AppOption) :
    (ApplyApps (r.withInitErr g) defOrder exp opts).2 =
      (ApplyApps r defOrder exp opts).2 ∧
    (ApplyApps (r.withInitErr g) defOrder exp opts).1.map scrubInitRes =
      (ApplyApps r defOrder exp opts).1.map scrubInitRes ∧
    scenHookNames (ApplyApps (r.withInitErr g) defOrder exp opts).1 =
      scenHookNames (ApplyApps r defOrder exp opts).1 ∧
    reportsOf (ApplyApps (r.withInitErr g) defOrder exp opts).1 =
      reportsOf (ApplyApps r defOrder exp opts).1 := by
  have hmain : (ApplyApps (r.withInitErr g) defOrder exp opts).2 =
      (ApplyApps r defOrder exp opts).2 ∧
      (ApplyApps (r.withInitErr g) defOrder exp opts).1.map scrubInitRes =
        (ApplyApps r defOrder exp opts).1.map scrubInitRes := by
    cases h1 : pass1 r (NewOptions opts).stage defOrder none with
    | ret evs e =>
      constructor <;> simp [ApplyApps, pass1_withInitErr, h1]
    | done evs1 errSt =>
      cases hsc : exp.scenario with
      | none =>
        constructor <;> simp [ApplyApps, pass1_withInitErr, h1, hsc]
      | some l =>
        have h2 := pass2_withInitErr r g (NewOptions opts).stage
          (NewOptions opts).dryRun l errSt
        cases h2' : pass2 (r.withInitErr g) (NewOptions opts).stage
            (NewOptions opts).dryRun l errSt with
        | done evs2' es' =>
          cases h2'' : pass2 r (NewOptions opts).stage
              (NewOptions opts).dryRun l errSt with
          | done evs2 es =>
            rw [h2', h2''] at h2
            simp only [PassOut.scrub, PassOut.done.injEq] at h2
            constructor <;>
              simp [ApplyApps, pass1_withInitErr, h1, hsc, h2', h2'', h2.1]
          | ret evs2 e2 =>
            rw [h2', h2''] at h2
            simp [PassOut.scrub] at h2
        | ret evs2' e' =>
          cases h2'' : pass2 r (NewOptions opts).stage
              (NewOptions opts).dryRun l errSt with
          | done evs2 es =>
            rw [h2', h2''] at h2
            simp [PassOut.scrub] at h2
          | ret evs2 e2 =>
            rw [h2', h2''] at h2
            simp only [PassOut.scrub, PassOut.ret.injEq] at h2
            constructor <;>
              simp [ApplyApps, pass1_withInitErr, h1, hsc, h2', h2'', h2.1, h2.2]
  refine ⟨hmain.1, hmain.2, ?_, ?_⟩
  · rw [← scenHookNames_map_scrub, hmain.2, scenHookNames_map_scrub]
  · rw [← reportsOf_map_scrub, hmain.2, reportsOf_map_scrub]

end Phenix
